import Mathlib

/-!
Verification of the `async-codec-rs` core (`src/lib.rs`): the polling
encode/decode protocol.  The crate is pure interface: the enums `PollEnc`,
`PollDec`, `DecodeError` and the impls `Display`, `Error`, `From<FutIoErr>`
are embedded directly from the source; the trait methods `poll_encode`,
`poll_decode` and `remaining_bytes` are declarations whose conforming
behaviour is fixed by their doc comments and the design document, so a
canonical conforming implementation is modelled from those words.
-/

/-- The kind tag of a `futures_io` error (`std::io::ErrorKind`); only the
kinds the contract mentions are distinguished. -/
inductive IoErrorKind where
  | writeZero
  | unexpectedEof
  | otherKind
deriving DecidableEq, Repr

/-- Embedding of `FutIoErr` (`futures_io::Error`, i.e. `std::io::Error`):
a kind together with a message; `Display` and `description` both render
the message. -/
structure FutIoErr where
  kind : IoErrorKind
  msg : String
deriving DecidableEq, Repr

/-- Display of an io error: its message. -/
def FutIoErr.display (e : FutIoErr) : String := e.msg

/-- The description of an io error: its message. -/
def FutIoErr.description (e : FutIoErr) : String := e.msg

/-- Embedding of `PollEnc<S>`, the return value for `poll_encode`
(src/lib.rs lines 14-24): `Done(usize)`, `Progress(S, usize)`,
`Pending(S)`, `Errored(FutIoErr)`. -/
inductive PollEnc (S : Type) where
  | Done (n : Nat)
  | Progress (s : S) (n : Nat)
  | Pending (s : S)
  | Errored (e : FutIoErr)
deriving DecidableEq, Repr

/-- Embedding of `DecodeError<E>` (src/lib.rs lines 85-91):
`ReaderError(FutIoErr)` or `DataError(E)`. -/
inductive DecodeError (E : Type) where
  | ReaderError (e : FutIoErr)
  | DataError (e : E)
deriving DecidableEq, Repr

/-- Embedding of `PollDec<T, S, E>`, the return value for `poll_decode`
(src/lib.rs lines 48-59): `Done(T, usize)`, `Progress(S, usize)`,
`Pending(S)`, `Errored(DecodeError<E>)`. -/
inductive PollDec (T S E : Type) where
  | Done (t : T) (n : Nat)
  | Progress (s : S) (n : Nat)
  | Pending (s : S)
  | Errored (e : DecodeError E)
deriving DecidableEq, Repr

/-- The continuation carried by a `PollEnc` outcome: present exactly in
the non-terminal variants `Progress` and `Pending`. -/
def PollEnc.continuation {S : Type} : PollEnc S → Option S
  | .Done _ => none
  | .Progress s _ => some s
  | .Pending s => some s
  | .Errored _ => none

/-- The continuation carried by a `PollDec` outcome. -/
def PollDec.continuation {T S E : Type} : PollDec T S E → Option S
  | .Done _ _ => none
  | .Progress s _ => some s
  | .Pending s => some s
  | .Errored _ => none

/-- Whether a `PollEnc` outcome is terminal (`Done` or `Errored`). -/
def PollEnc.isTerminal {S : Type} : PollEnc S → Bool
  | .Done _ => true
  | .Progress _ _ => false
  | .Pending _ => false
  | .Errored _ => true

/-- Whether a `PollDec` outcome is terminal (`Done` or `Errored`). -/
def PollDec.isTerminal {T S E : Type} : PollDec T S E → Bool
  | .Done _ _ => true
  | .Progress _ _ => false
  | .Pending _ => false
  | .Errored _ => true

/-- The error payload of a `PollEnc` outcome.  Its type is
`Option FutIoErr`: at the type level an encode failure can only carry an
io error, there is no data-error case. -/
def PollEnc.errorOf {S : Type} : PollEnc S → Option FutIoErr
  | .Errored e => some e
  | _ => none

/-- Embedding of `impl<E: Display> Display for DecodeError<E>`
(src/lib.rs lines 93-100); `dispE` is the `Display` of `E`. -/
def DecodeError.display {E : Type} (dispE : E → String) : DecodeError E → String
  | .ReaderError err => "Decode reader error: " ++ err.display
  | .DataError err => "Decode data error: " ++ dispE err

/-- Embedding of `description` from `impl<E: Error> Error for DecodeError<E>`
(src/lib.rs lines 103-108); `descE` is the `description` of `E`. -/
def DecodeError.description {E : Type} (descE : E → String) : DecodeError E → String
  | .ReaderError err => err.description
  | .DataError err => descE err

/-- Embedding of `cause` from `impl<E: Error> Error for DecodeError<E>`
(src/lib.rs lines 110-115): both variants yield `Some` of the wrapped
inner error (rendered as a sum, since the two inner types differ). -/
def DecodeError.cause {E : Type} : DecodeError E → Option (FutIoErr ⊕ E)
  | .ReaderError err => some (Sum.inl err)
  | .DataError err => some (Sum.inr err)

/-- Embedding of `impl<E> From<FutIoErr> for DecodeError<E>`
(src/lib.rs lines 118-122). -/
def DecodeError.fromIoErr {E : Type} (err : FutIoErr) : DecodeError E :=
  .ReaderError err

/-- The error a conforming encoder reports when the writer accepts zero
bytes while the value is not fully encoded ("an error of kind
`WriteZero`", src/lib.rs lines 36-37). -/
def writeZeroErr : FutIoErr := ⟨.writeZero, "write zero"⟩

/-- The error a conforming decoder reports when the reader delivers zero
bytes while the value is not fully decoded ("an error of kind
`UnexpectedEof`", src/lib.rs lines 77-78). -/
def eofErr : FutIoErr := ⟨.unexpectedEof, "unexpected end of input"⟩

/-- One answer of an instrumented fake `AsyncWrite`: `poll_write` reports
bytes accepted, would-block, or an error. -/
inductive WriteResponse where
  | ready (n : Nat)
  | pendingWrite
  | ioError (e : FutIoErr)
deriving DecidableEq, Repr

/-- One answer of an instrumented fake `AsyncRead`: `poll_read` reports
the bytes delivered, would-block, or an error. -/
inductive ReadResponse where
  | ready (bytes : List Nat)
  | pendingRead
  | ioError (e : FutIoErr)
deriving DecidableEq, Repr

/-- Modelled from the spec: the conforming `AsyncEncode::poll_encode` body,
which is absent from src (the trait only declares it).  The encoder state
is the list of bytes still to be written; `r` is the writer's single
`poll_write` answer.  Per the doc contract: propagate `Err` and `Pending`;
a zero-byte write while bytes remain is a `WriteZero` error; otherwise
drop the accepted bytes, reporting `Done` when everything was written and
`Progress` otherwise. -/
def encStep (enc : List Nat) (r : WriteResponse) : PollEnc (List Nat) :=
  match enc with
  | [] => .Done 0
  | _ :: _ =>
    match r with
    | .pendingWrite => .Pending enc
    | .ioError e => .Errored e
    | .ready n =>
      if n = 0 then .Errored writeZeroErr
      else
        let k := min n enc.length
        if k = enc.length then .Done k
        else .Progress (enc.drop k) k

/-- Modelled from the spec: one poll call against an instrumented fake
writer, a queue of `poll_write` answers.  A fully-written encoder reports
`Done 0` without touching the writer; otherwise exactly the head answer
is consumed (exactly one `poll_write` call).  An exhausted queue behaves
as would-block. -/
def pollEncode (enc : List Nat) (w : List WriteResponse) :
    PollEnc (List Nat) × List WriteResponse :=
  match enc with
  | [] => (.Done 0, w)
  | _ :: _ =>
    match w with
    | [] => (.Pending enc, [])
    | r :: rest => (encStep enc r, rest)

/-- Modelled from the spec: `AsyncEncodeLen::remaining_bytes`, absent from
src (declaration only): the exact number of bytes the encoder will still
write, a pure function of its state. -/
def remainingBytes (enc : List Nat) : Nat := enc.length

/-- State of the model decoder: it decodes a fixed-length byte string of
`total` bytes, `buf` holding the bytes collected so far. -/
structure DecState where
  total : Nat
  buf : List Nat
deriving DecidableEq, Repr

/-- Modelled from the spec: the conforming `AsyncDecode::poll_decode` body,
absent from src (the trait only declares it), for the fixed-length model
decoder; `r` is the reader's single `poll_read` answer.  Per the doc
contract: propagate `Err` and `Pending`; zero bytes read while the value
is incomplete is an `UnexpectedEof` error; otherwise append the delivered
bytes (never over-reading past `total`), reporting `Done` with the value
when it is complete and `Progress` otherwise. -/
def decStep {E : Type} (d : DecState) (r : ReadResponse) :
    PollDec (List Nat) DecState E :=
  if d.total ≤ d.buf.length then .Done d.buf 0
  else
    match r with
    | .pendingRead => .Pending d
    | .ioError e => .Errored (.ReaderError e)
    | .ready bs =>
      match bs with
      | [] => .Errored (.ReaderError eofErr)
      | _ :: _ =>
        let got := bs.take (d.total - d.buf.length)
        let buf2 := d.buf ++ got
        if buf2.length = d.total then .Done buf2 got.length
        else .Progress ⟨d.total, buf2⟩ got.length

/-- Modelled from the spec: one poll call against an instrumented fake
reader, a queue of `poll_read` answers.  A completed decoder reports its
value without touching the reader; otherwise exactly the head answer is
consumed (exactly one `poll_read` call).  An exhausted queue behaves as
would-block. -/
def pollDecode {E : Type} (d : DecState) (rs : List ReadResponse) :
    PollDec (List Nat) DecState E × List ReadResponse :=
  if d.total ≤ d.buf.length then (.Done d.buf 0, rs)
  else
    match rs with
    | [] => (.Pending d, [])
    | r :: rest => (decStep d r, rest)

/-- The encoder states reachable from an initial encoder `init`, together
with the total byte count written so far: the initial state with 0 bytes
written, and every state a `Progress` outcome hands back, its reported
count added to the total.  (`Pending` returns the same state and count.) -/
inductive EncReaches (init : List Nat) : List Nat → Nat → Prop where
  | start : EncReaches init init 0
  | progress {s s2 : List Nat} {k n : Nat} {r : WriteResponse} :
      EncReaches init s k → encStep s r = .Progress s2 n →
      EncReaches init s2 (k + n)

/-- Inversion of the model encode step at a `Progress` outcome: the byte
count is strictly positive and accounts exactly for the dropped bytes. -/
theorem encStep_progress_inv {enc : List Nat} {r : WriteResponse}
    {s : List Nat} {n : Nat} (h : encStep enc r = .Progress s n) :
    0 < n ∧ s.length + n = enc.length := by
  match enc, r with
  | [], r => simp [encStep] at h
  | a :: t, .pendingWrite => simp [encStep] at h
  | a :: t, .ioError e => simp [encStep] at h
  | a :: t, .ready m =>
    simp only [encStep] at h
    by_cases hm : m = 0
    · simp [hm] at h
    · rw [if_neg hm] at h
      by_cases hk : min m (a :: t).length = (a :: t).length
      · simp only [hk, if_pos rfl] at h
        exact absurd h (by simp)
      · simp only [if_neg hk] at h
        obtain ⟨hs, hn⟩ := (PollEnc.Progress.injEq ..).mp h.symm
        have hmin : 0 < min m (a :: t).length :=
          lt_min (Nat.pos_of_ne_zero hm) (by simp)
        have hle : min m (a :: t).length ≤ (a :: t).length := min_le_right ..
        subst hs hn
        refine ⟨hmin, ?_⟩
        rw [List.length_drop]
        omega

/-- Inversion of the model decode step at a `Progress` outcome: the byte
count is strictly positive. -/
theorem decStep_progress_inv {E : Type} {d : DecState} {r : ReadResponse}
    {s : DecState} {n : Nat} (h : decStep (E := E) d r = .Progress s n) :
    0 < n := by
  unfold decStep at h
  by_cases hd : d.total ≤ d.buf.length
  · rw [if_pos hd] at h; exact absurd h (by simp)
  · rw [if_neg hd] at h
    match r with
    | .pendingRead => exact absurd h (by simp)
    | .ioError e => exact absurd h (by simp)
    | .ready [] => exact absurd h (by simp)
    | .ready (b :: bs) =>
      simp only at h
      by_cases hc : (d.buf ++ (b :: bs).take (d.total - d.buf.length)).length = d.total
      · rw [if_pos hc] at h; exact absurd h (by simp)
      · rw [if_neg hc] at h
        obtain ⟨-, hn⟩ := (PollDec.Progress.injEq ..).mp h.symm
        subst hn
        simp [List.length_take]
        omega

/-- C1: The outcome of one poll call is a tagged sum of exactly four
cases for both encode (`PollEnc`) and decode (`PollDec`): a terminal
`Done` case carrying the byte count of the last call (and, for decode,
the decoded value), a non-terminal `Progress` case carrying a
continuation and a byte count that a conforming implementation keeps
strictly positive, a non-terminal `Pending` case carrying only a
continuation, and a terminal `Errored` case carrying an error. -/
theorem poll_outcome_four_cases :
    (∀ (S : Type) (p : PollEnc S),
      (∃ n, p = .Done n ∧ p.isTerminal = true) ∨
      (∃ s n, p = .Progress s n ∧ p.isTerminal = false) ∨
      (∃ s, p = .Pending s ∧ p.isTerminal = false) ∨
      (∃ e, p = .Errored e ∧ p.isTerminal = true)) ∧
    (∀ (T S E : Type) (p : PollDec T S E),
      (∃ t n, p = .Done t n ∧ p.isTerminal = true) ∨
      (∃ s n, p = .Progress s n ∧ p.isTerminal = false) ∨
      (∃ s, p = .Pending s ∧ p.isTerminal = false) ∨
      (∃ e, p = .Errored e ∧ p.isTerminal = true)) ∧
    (∀ (enc : List Nat) (r : WriteResponse) (s : List Nat) (n : Nat),
      encStep enc r = .Progress s n → 0 < n) ∧
    (∀ (E : Type) (d : DecState) (r : ReadResponse) (s : DecState) (n : Nat),
      decStep (E := E) d r = .Progress s n → 0 < n) := by
  refine ⟨?_, ?_, ?_, ?_⟩
  · intro S p
    cases p <;> simp [PollEnc.isTerminal]
  · intro T S E p
    cases p <;> simp [PollDec.isTerminal]
  · intro enc r s n h
    exact (encStep_progress_inv h).1
  · intro E d r s n h
    exact decStep_progress_inv h

/-- Witness for C1: the positivity conjuncts applied at a concrete
encode step and a concrete decode step. -/
theorem poll_outcome_four_cases_witness :
    encStep [1, 2] (.ready 1) = .Progress [2] 1 ∧ (0 : Nat) < 1 :=
  ⟨by decide, poll_outcome_four_cases.2.2.1 [1, 2] (.ready 1) [2] 1 (by decide)⟩

/-- C2: A continuation exists exactly in the non-terminal variants
`Progress` and `Pending`; the terminal variants `Done` and `Errored` of
both `PollEnc` and `PollDec` carry no continuation state, so after a
terminal outcome there is nothing left to poll. -/
theorem continuation_exactly_nonterminal :
    (∀ (S : Type) (p : PollEnc S),
      ((∃ s, p.continuation = some s) ↔
        ((∃ s n, p = .Progress s n) ∨ (∃ s, p = .Pending s))) ∧
      (p.continuation = none ↔ ((∃ n, p = .Done n) ∨ (∃ e, p = .Errored e))) ∧
      (p.continuation = none ↔ p.isTerminal = true)) ∧
    (∀ (T S E : Type) (p : PollDec T S E),
      ((∃ s, p.continuation = some s) ↔
        ((∃ s n, p = .Progress s n) ∨ (∃ s, p = .Pending s))) ∧
      (p.continuation = none ↔ ((∃ t n, p = .Done t n) ∨ (∃ e, p = .Errored e))) ∧
      (p.continuation = none ↔ p.isTerminal = true)) := by
  constructor
  · intro S p
    cases p <;> simp [PollEnc.continuation, PollEnc.isTerminal]
  · intro T S E p
    cases p <;> simp [PollDec.continuation, PollDec.isTerminal]

/-- C6: The decode error type is a sum of exactly two cases, a transport
error holding a propagated io error (`ReaderError`) and a data error
holding the decoder's domain-specific error (`DataError`); no value is
both. -/
theorem decode_error_exactly_two_cases :
    ∀ (E : Type) (d : DecodeError E),
      ((∃ e : FutIoErr, d = .ReaderError e) ∨ (∃ x : E, d = .DataError x)) ∧
      ¬((∃ e : FutIoErr, d = .ReaderError e) ∧ (∃ x : E, d = .DataError x)) := by
  intro E d
  cases d <;> simp

/-- C3: Exactly one underlying I/O attempt per poll call: while the value
is unfinished, one poll of the model encoder consumes exactly the head
answer of the instrumented writer queue, and one poll of the model
decoder consumes exactly the head answer of the instrumented reader
queue — no internal retry, no busy-loop. -/
theorem single_io_attempt_per_poll :
    (∀ (enc : List Nat) (r : WriteResponse) (rest : List WriteResponse),
      enc ≠ [] →
        (pollEncode enc (r :: rest)).2 = rest ∧
        (r :: rest).length = (pollEncode enc (r :: rest)).2.length + 1) ∧
    (∀ (E : Type) (d : DecState) (r : ReadResponse) (rest : List ReadResponse),
      d.buf.length < d.total →
        (pollDecode (E := E) d (r :: rest)).2 = rest ∧
        (r :: rest).length = (pollDecode (E := E) d (r :: rest)).2.length + 1) := by
  constructor
  · intro enc r rest hne
    cases enc with
    | nil => exact absurd rfl hne
    | cons a t => simp [pollEncode]
  · intro E d r rest hlt
    simp [pollDecode, Nat.not_le.mpr hlt]

/-- Witness for C3: one poll at a concrete encoder and decoder each
consume exactly one queued answer. -/
theorem single_io_attempt_witness :
    (pollEncode [7] [.pendingWrite, .ready 1]).2 = [.ready 1] ∧
    (pollDecode (E := Unit) ⟨1, []⟩ [.pendingRead, .ready [9]]).2 = [.ready [9]] :=
  ⟨(single_io_attempt_per_poll.1 [7] .pendingWrite [.ready 1] (by decide)).1,
   (single_io_attempt_per_poll.2 Unit ⟨1, []⟩ .pendingRead [.ready [9]] (by decide)).1⟩

/-- C4: If the writer accepts zero bytes while the value is not fully
encoded, the poll reports a terminal `Errored` outcome whose io error has
kind `WriteZero`; the answer queue shows no retry, and the outcome is
neither `Progress` nor `Done`. -/
theorem write_zero_reported_as_failure :
    ∀ (enc : List Nat) (rest : List WriteResponse), enc ≠ [] →
      (pollEncode enc (.ready 0 :: rest)).1 = .Errored writeZeroErr ∧
      writeZeroErr.kind = .writeZero ∧
      (pollEncode enc (.ready 0 :: rest)).2 = rest ∧
      (pollEncode enc (.ready 0 :: rest)).1.isTerminal = true := by
  intro enc rest hne
  cases enc with
  | nil => exact absurd rfl hne
  | cons a t =>
    refine ⟨by simp [pollEncode, encStep], rfl, by simp [pollEncode], ?_⟩
    simp [pollEncode, encStep, PollEnc.isTerminal]

/-- Witness for C4: a zero-byte write on a one-byte encoder fails with
the write-zero error. -/
theorem write_zero_witness :
    ([5] : List Nat) ≠ [] ∧
    (pollEncode [5] [.ready 0]).1 = .Errored writeZeroErr :=
  ⟨by decide, (write_zero_reported_as_failure [5] [] (by decide)).1⟩

/-- C5: If the reader delivers zero bytes while the value is not fully
decoded, the poll reports a terminal `Errored` outcome carrying a
`ReaderError` whose io error has kind `UnexpectedEof`; the answer queue
shows no retry, and the zero-byte read is never treated as completion. -/
theorem zero_read_reported_as_eof :
    ∀ (E : Type) (d : DecState) (rest : List ReadResponse),
      d.buf.length < d.total →
        (pollDecode (E := E) d (.ready [] :: rest)).1 =
          .Errored (.ReaderError eofErr) ∧
        eofErr.kind = .unexpectedEof ∧
        (pollDecode (E := E) d (.ready [] :: rest)).2 = rest ∧
        (pollDecode (E := E) d (.ready [] :: rest)).1.isTerminal = true := by
  intro E d rest hlt
  have hn := Nat.not_le.mpr hlt
  refine ⟨?_, rfl, by simp [pollDecode, hn], ?_⟩
  · simp [pollDecode, decStep, hn]
  · simp [pollDecode, decStep, hn, PollDec.isTerminal]

/-- Witness for C5: a zero-byte read on an empty two-byte decoder fails
with the unexpected-end-of-input error. -/
theorem zero_read_witness :
    (⟨2, []⟩ : DecState).buf.length < (⟨2, []⟩ : DecState).total ∧
    (pollDecode (E := Unit) ⟨2, []⟩ [.ready []]).1 =
      .Errored (.ReaderError eofErr) :=
  ⟨by decide, (zero_read_reported_as_eof Unit ⟨2, []⟩ [] (by decide)).1⟩

/-- The rendered form of a `ReaderError` never coincides with the
rendered form of a `DataError`: the two `Display` prefixes differ at
their eighth character. -/
theorem display_prefix_ne (a b : String) :
    "Decode reader error: " ++ a ≠ "Decode data error: " ++ b := by
  intro h
  have h1 : ("Decode reader error: " ++ a).data =
      ("Decode data error: " ++ b).data := by rw [h]
  rw [String.data_append, String.data_append] at h1
  have h2 := congrArg (fun l => l.getD 7 'z') h1
  simp only at h2
  rw [List.getD_append _ _ _ _ (by decide),
    List.getD_append _ _ _ _ (by decide)] at h2
  exact absurd h2 (by decide)

/-- C7: Propagation preserves which decode error kind occurred: the
`From<FutIoErr>` conversion always builds `ReaderError` and never
`DataError`, and for every pair of error values the `Display` output of a
`ReaderError` differs from that of a `DataError`. -/
theorem decode_error_kind_preserved :
    (∀ (E : Type) (err : FutIoErr),
      DecodeError.fromIoErr (E := E) err = .ReaderError err ∧
      ∀ x : E, DecodeError.fromIoErr (E := E) err ≠ .DataError x) ∧
    (∀ (E : Type) (dispE : E → String) (e : FutIoErr) (x : E),
      DecodeError.display dispE (.ReaderError e) ≠
        DecodeError.display dispE (.DataError x)) := by
  constructor
  · intro E err
    refine ⟨rfl, fun x h => ?_⟩
    simp [DecodeError.fromIoErr] at h
  · intro E dispE e x
    simp only [DecodeError.display]
    exact display_prefix_ne _ _

/-- Witness for C7: the conversion and the `Display` separation at
concrete errors. -/
theorem decode_error_kind_witness :
    DecodeError.fromIoErr (E := Unit) eofErr = .ReaderError eofErr ∧
    DecodeError.display (fun _ : Unit => "u") (.ReaderError eofErr) ≠
      DecodeError.display (fun _ : Unit => "u") (.DataError ()) :=
  ⟨(decode_error_kind_preserved.1 Unit eofErr).1,
   decode_error_kind_preserved.2 Unit (fun _ => "u") eofErr ()⟩

/-- C9: For decode errors of either kind, `cause` returns `Some` of the
wrapped inner error — never `None` — and `description` returns exactly
the inner error's description. -/
theorem decode_error_cause_description :
    ∀ (E : Type) (descE : E → String),
      (∀ e : FutIoErr,
        (DecodeError.ReaderError (E := E) e).cause = some (Sum.inl e) ∧
        DecodeError.description descE (.ReaderError e) = e.description) ∧
      (∀ x : E,
        (DecodeError.DataError (E := E) x).cause = some (Sum.inr x) ∧
        DecodeError.description descE (.DataError x) = descE x) ∧
      (∀ d : DecodeError E, ∃ inner, d.cause = some inner) := by
  intro E descE
  refine ⟨fun e => ⟨rfl, rfl⟩, fun x => ⟨rfl, rfl⟩, fun d => ?_⟩
  cases d <;> exact ⟨_, rfl⟩

/-- C10: Encode failures are transport-origin at the type level: the
error payload of a `PollEnc` outcome is an `Option FutIoErr`, present
exactly on `Errored`, and the write-zero protocol violation is reported
through the io error's kind, not through a distinct variant. -/
theorem encode_errors_transport_only :
    (∀ (S : Type) (p : PollEnc S),
      (∃ e : FutIoErr, p.errorOf = some e) ↔ (∃ e : FutIoErr, p = .Errored e)) ∧
    (∀ (S : Type) (e : FutIoErr), (PollEnc.Errored (S := S) e).errorOf = some e) ∧
    (∀ (enc : List Nat) (rest : List WriteResponse), enc ≠ [] →
      ∃ e : FutIoErr, (pollEncode enc (.ready 0 :: rest)).1 = .Errored e ∧
        e.kind = .writeZero) := by
  refine ⟨?_, fun S e => rfl, ?_⟩
  · intro S p
    cases p <;> simp [PollEnc.errorOf]
  · intro enc rest hne
    cases enc with
    | nil => exact absurd rfl hne
    | cons a t => exact ⟨writeZeroErr, by simp [pollEncode, encStep], rfl⟩

/-- Witness for C10: the concrete write-zero failure is an `Errored`
holding an io error of kind `WriteZero`. -/
theorem encode_errors_transport_witness :
    ∃ e : FutIoErr, (pollEncode [5] [.ready 0]).1 = .Errored e ∧
      e.kind = .writeZero :=
  encode_errors_transport_only.2.2 [5] [] (by decide)

/-- C8: The length oracle is exact: on every reachable state of the
model encoder with `k` bytes written out of an initial encoding of
`init.length` bytes, `remainingBytes` equals `init.length - k`, and it
equals zero exactly when a poll reports completion without further
I/O. -/
theorem remaining_bytes_exact :
    (∀ (init s : List Nat) (k : Nat), EncReaches init s k →
      remainingBytes s = init.length - k ∧ k ≤ init.length) ∧
    (∀ s : List Nat,
      remainingBytes s = 0 ↔ ∀ w, (pollEncode s w).1 = .Done 0) := by
  constructor
  · intro init s k h
    induction h with
    | start => simp [remainingBytes]
    | progress ha hb ih =>
      obtain ⟨hpos, hlen⟩ := encStep_progress_inv hb
      obtain ⟨ih1, ih2⟩ := ih
      simp only [remainingBytes] at ih1 ⊢
      omega
  · intro s
    constructor
    · intro h0 w
      have hnil : s = [] := List.length_eq_zero.mp h0
      subst hnil
      rfl
    · intro hall
      cases s with
      | nil => rfl
      | cons a t =>
        have hp := hall [.pendingWrite]
        simp [pollEncode, encStep] at hp

/-- Witness for C8: after 2 of 3 bytes are written, the reachable state
`[3]` reports exactly 1 remaining byte. -/
theorem remaining_bytes_witness :
    remainingBytes [3] = ([1, 2, 3] : List Nat).length - 2 ∧
    2 ≤ ([1, 2, 3] : List Nat).length :=
  remaining_bytes_exact.1 [1, 2, 3] [3] 2
    (EncReaches.progress (n := 2) (r := WriteResponse.ready 2)
      EncReaches.start (by decide))
